import Mathlib

set_option maxHeartbeats 1000000

/-
Verification of the calendar core in src/packages/core/src/calendar/calendar.tsx.

The component's date helpers (compareDate, compareYearMonth, createNextDay,
createPreviousDay, createToday) are imported from ./calendar.shared, whose
source is not part of this tree; they are modelled from the specification's
DateMath section (day-granularity comparison and one-day arithmetic on
midnight-normalized local calendar dates).  Everything else below is a direct
shallow embedding of the functions in calendar.tsx: JS Dates become CDate
triples (year, zero-based month as in Date.getMonth, day of month), pixel
quantities become integers, React state updates become explicit state passing,
and the impure createToday() becomes an explicit `now` argument.
-/

structure CDate where
  year : Nat
  month : Nat
  day : Nat
deriving DecidableEq, Repr

/-- Modelled from the spec: compareByYearMonth from calendar.shared.ts (not
under src/) — compares only year and month, returning -1, 0 or 1. -/
def compareYearMonth (a b : CDate) : Int :=
  if a.year = b.year then
    if a.month = b.month then 0
    else if a.month > b.month then 1
    else -1
  else if a.year > b.year then 1
  else -1

/-- Modelled from the spec: compareByDay from calendar.shared.ts (not under
src/) — compares at day granularity, returning -1, 0 or 1. -/
def compareDate (a b : CDate) : Int :=
  if compareYearMonth a b ≠ 0 then compareYearMonth a b
  else if a.day = b.day then 0
  else if a.day > b.day then 1
  else -1

def isLeapYear (y : Nat) : Bool :=
  (y % 4 == 0 && y % 100 != 0) || y % 400 == 0

def daysInMonth (y m : Nat) : Nat :=
  if m = 1 then (if isLeapYear y then 29 else 28)
  else if m = 3 ∨ m = 5 ∨ m = 8 ∨ m = 10 then 30
  else 31

/-- Modelled from the spec: nextDay from calendar.shared.ts (not under src/) —
one day forward with JS Date month/year rollover. -/
def createNextDay (d : CDate) : CDate :=
  if d.day < daysInMonth d.year d.month then ⟨d.year, d.month, d.day + 1⟩
  else if d.month < 11 then ⟨d.year, d.month + 1, 1⟩
  else ⟨d.year + 1, 0, 1⟩

/-- Modelled from the spec: previousDay from calendar.shared.ts (not under
src/) — one day backward with JS Date month/year rollover. -/
def createPreviousDay (d : CDate) : CDate :=
  if d.day > 1 then ⟨d.year, d.month, d.day - 1⟩
  else if d.month > 0 then ⟨d.year, d.month - 1, daysInMonth d.year (d.month - 1)⟩
  else ⟨d.year - 1, 11, 31⟩

/-- A CDate denoting an actual JS Date at midnight: positive year, month in
0..11 as produced by Date.getMonth, day in 1..daysInMonth. -/
def ValidDate (d : CDate) : Prop :=
  1 ≤ d.year ∧ d.month ≤ 11 ∧ 1 ≤ d.day ∧ d.day ≤ daysInMonth d.year d.month

instance (d : CDate) : Decidable (ValidDate d) := by
  unfold ValidDate; infer_instance

inductive CalendarType where
  | single
  | multiple
  | range
deriving DecidableEq, Repr

/-- The raw `defaultValue` / `value` prop (CalendarValueType, possibly absent):
null is the explicit no-selection sentinel, undef models `undefined`. -/
inductive RawValue where
  | null
  | undef
  | date (d : CDate)
  | arr (ds : List CDate)
deriving DecidableEq, Repr

/-- A present selection value: a lone Date or an array of Dates. -/
inductive CalValue where
  | date (d : CDate)
  | dates (ds : List CDate)
deriving DecidableEq, Repr

/-- limitDateRange from calendar.tsx (lines 147-158): clamp a date into
[minDate, maxDate] at day granularity. -/
def limitDateRange (date minDate maxDate : CDate) : CDate :=
  if compareDate date minDate = -1 then minDate
  else if compareDate date maxDate = 1 then maxDate
  else date

/-- getInitialDate from calendar.tsx (lines 160-190).  `now` stands for the
impure createToday().  A null default passes through as the empty selection;
range mode coerces a non-array to [] and clamps start into
[minValue, previousDay maxValue] and end into [nextDay minValue, maxValue]
(the second clamp uses the default maxDate argument); multiple mode clamps
every array element or falls back to [clamp now]; single mode falls back to
now when the default is missing or an array. -/
def getInitialDate (ty : CalendarType) (now minValue maxValue : CDate)
    (defaultDate : RawValue) : Option CalValue :=
  match defaultDate with
  | .null => none
  | _ =>
    match ty with
    | .range =>
      let ds : List CDate := match defaultDate with
        | .arr ds => ds
        | _ => []
      let start := limitDateRange ((ds.get? 0).getD now) minValue
        (createPreviousDay maxValue)
      let stop := limitDateRange ((ds.get? 1).getD now) (createNextDay minValue)
        maxValue
      some (.dates [start, stop])
    | .multiple =>
      match defaultDate with
      | .arr ds => some (.dates (ds.map (fun d => limitDateRange d minValue maxValue)))
      | _ => some (.dates [limitDateRange now minValue maxValue])
    | .single =>
      let d : CDate := match defaultDate with
        | .date d => d
        | _ => now
      some (.date (limitDateRange d minValue maxValue))

/-- getDisabledDate from calendar.tsx (lines 207-214): the first entry of the
disabled-day list lying strictly between startDay and date. -/
def getDisabledDate (disabledDays : List CDate) (startDay date : CDate) :
    Option CDate :=
  disabledDays.find? (fun day =>
    compareDate startDay day == -1 && compareDate day date == -1)

/-- onDayClick from calendar.tsx (lines 231-282), as the value passed to
`change` (none = no call).  The tapped cell's value is Option (filler cells
have none).  In range mode the source destructures currentValue as an array;
a lone Date there (or under multiple mode) would throw at the destructuring /
spread in JS, modelled as no published change. -/
def onDayClick (readonly : Bool) (ty : CalendarType)
    (currentValue : Option CalValue) (disabledDays : List CDate)
    (dayValue : Option CDate) : Option CalValue :=
  match dayValue with
  | none => none
  | some date =>
    if readonly then none
    else
      match ty with
      | .range =>
        match currentValue with
        | none => some (.dates [date])
        | some (.date _) => none
        | some (.dates ds) =>
          match ds.get? 0, ds.get? 1 with
          | some startDay, none =>
            let compareToStart := compareDate date startDay
            if compareToStart = 1 then
              match getDisabledDate disabledDays startDay date with
              | some disabledDay =>
                some (.dates [startDay, createPreviousDay disabledDay])
              | none => some (.dates [startDay, date])
            else if compareToStart = -1 then some (.dates [date])
            else some (.dates [date, date])
          | _, _ => some (.dates [date])
      | .multiple =>
        match currentValue with
        | none => some (.dates [date])
        | some (.date _) => none
        | some (.dates dates) =>
          let newDates := dates.filter (fun dateItem => compareDate dateItem date != 0)
          if newDates.length ≠ dates.length then some (.dates newDates)
          else some (.dates (dates ++ [date]))
      | .single => some (.date date)

/-- Month index: year * 12 + getMonth.  JS setMonth(getMonth() + 1) advances
this index by exactly one, normalizing the year. -/
def mIdx (d : CDate) : Nat := d.year * 12 + d.month

/-- The first-of-month Date whose month index is i. -/
def monthAnchor (i : Nat) : CDate := ⟨i / 12, i % 12, 1⟩

/-- The do/while body of the months memo (calendar.tsx lines 192-204): push
the cursor, advance one month, continue while compareYearMonth cursor max is
not 1.  The cursor is tracked by its month index (JS Dates normalize months
into 0..11, so a cursor Date is exactly monthAnchor of its index); the fuel
argument only bounds the recursion and equals the number of remaining
iterations when the loop is entered with min's month not after max's. -/
def monthsGo (maxValue : CDate) : Nat → Nat → List Nat
  | 0, c => [c]
  | fuel + 1, c =>
    c :: (if compareYearMonth (monthAnchor (c + 1)) maxValue ≠ 1 then
      monthsGo maxValue fuel (c + 1)
    else [])

/-- months from calendar.tsx (lines 192-204): the ordered month anchors from
the first day of minValue's month, advancing one month at a time, while the
cursor's year-month does not exceed maxValue's. -/
def months (minValue maxValue : CDate) : List CDate :=
  (monthsGo maxValue (mIdx maxValue - mIdx minValue) (mIdx minValue)).map monthAnchor

/-- The for loop of onScroll (calendar.tsx lines 296-307): scan the rendered
month heights from the top, accumulating each month's cumulative top, and
return the index of the first month whose span [height, height + heights i]
meets the visible band [top, bottom]. -/
def findVisibleMonth (top bottom : Int) : List Int → Int → Nat → Option Nat
  | [], _, _ => none
  | h :: rest, height, i =>
    if height ≤ bottom ∧ height + h ≥ top then some i
    else findVisibleMonth top bottom rest (height + h) (i + 1)

/-- onScroll from calendar.tsx (lines 284-312), up to the month selection:
given the container scroll top, the body height and the per-month rendered
heights (pixel quantities, taken as integers), either none (the iOS bounce
guard fired, or no month matched) or the index of the selected month. -/
def onScrollPure (top bodyHeight : Int) (heights : List Int) : Option Nat :=
  let bottom := top + bodyHeight
  let heightSum := heights.foldl (fun a b => a + b) 0
  if bottom > heightSum ∧ top > 0 then none
  else findVisibleMonth top bottom heights 0 0

/-- The state effect of one onScroll run (calendar.tsx lines 284-319): when a
month is selected, its subtitle is recomputed through the pluggable renderer
and setSubtitle is invoked (setMonthSubtitle only re-checks that the month
instance is non-null); otherwise the subtitle state is untouched.  The month
list stands for the month refs (monthRefs[i].current.getValue() = months[i];
heights are reported per rendered month, so an index out of the month list is
unreachable and modelled as no update).  Returns the new subtitle state and
whether setSubtitle was invoked. -/
def onScrollStep {α : Type} (monthsL : List CDate) (render : CDate → α)
    (subtitle : Option α) (top bodyHeight : Int) (heights : List Int) :
    Option α × Bool :=
  match onScrollPure top bodyHeight heights with
  | some i =>
    match monthsL.get? i with
    | some m => (some (render m), true)
    | none => (subtitle, false)
  | none => (subtitle, false)

/-- defaultSubtitleRender from calendar.tsx (lines 42-44). -/
def defaultSubtitleRender (date : CDate) : String :=
  toString date.year ++ "年" ++ toString (date.month + 1) ++ "月"

/-- The target-date computation of scrollIntoView (calendar.tsx lines 352-366):
a lone Date under single mode is the target itself; any array's element 0 is
the target; otherwise the target is undefined. -/
def scrollTarget (ty : CalendarType) (newValue : CalValue) : Option CDate :=
  match ty, newValue with
  | .single, .date d => some d
  | _, .dates ds => ds.get? 0
  | _, .date _ => none

/-- The months.some loop of scrollToDate (calendar.tsx lines 321-349): the
index of the first month anchor whose year-month equals the target's. -/
def scrollToDateLoop (targetDate : CDate) : List CDate → Nat → Option Nat
  | [], _ => none
  | m :: rest, i =>
    if compareYearMonth m targetDate == 0 then some i
    else scrollToDateLoop targetDate rest (i + 1)

def scrollToDateIndex (monthsL : List CDate) (targetDate : CDate) : Option Nat :=
  scrollToDateLoop targetDate monthsL 0

/-- The subtitle scrollToDate publishes on a hit: the renderer applied to the
matched month's own anchor (currentMonth.getValue()). -/
def scrollToDateSubtitle {α : Type} (monthsL : List CDate) (render : CDate → α)
    (targetDate : CDate) : Option α :=
  (scrollToDateIndex monthsL targetDate).bind (fun i => (monthsL.get? i).map render)

/-- x lies in the inclusive day-granularity window [minV, maxV]. -/
def InRange (minV maxV x : CDate) : Prop :=
  compareDate x minV ≠ -1 ∧ compareDate x maxV ≠ 1

instance (minV maxV x : CDate) : Decidable (InRange minV maxV x) := by
  unfold InRange; infer_instance

/-- Every date component of a selection value lies in [minV, maxV]. -/
def allInRange (minV maxV : CDate) : Option CalValue → Prop
  | none => True
  | some (.date d) => InRange minV maxV d
  | some (.dates ds) => ∀ x ∈ ds, InRange minV maxV x

/- Order facts about the day-granularity comparison. -/

lemma cym_eq_one_iff (a b : CDate) :
    compareYearMonth a b = 1 ↔
      (b.year < a.year ∨ (b.year = a.year ∧ b.month < a.month)) := by
  unfold compareYearMonth
  split_ifs <;>
    (try simp only [false_iff, true_iff, iff_false, iff_true]) <;> omega

lemma cym_eq_zero_iff (a b : CDate) :
    compareYearMonth a b = 0 ↔ (a.year = b.year ∧ a.month = b.month) := by
  unfold compareYearMonth
  split_ifs <;>
    (try simp only [false_iff, true_iff, iff_false, iff_true]) <;> omega

lemma cd_eq_one_iff (a b : CDate) :
    compareDate a b = 1 ↔
      (b.year < a.year ∨ (b.year = a.year ∧
        (b.month < a.month ∨ (b.month = a.month ∧ b.day < a.day)))) := by
  unfold compareDate compareYearMonth
  split_ifs <;>
    (try simp only [false_iff, true_iff, iff_false, iff_true]) <;> omega

lemma cd_eq_neg_one_iff (a b : CDate) :
    compareDate a b = -1 ↔
      (a.year < b.year ∨ (a.year = b.year ∧
        (a.month < b.month ∨ (a.month = b.month ∧ a.day < b.day)))) := by
  unfold compareDate compareYearMonth
  split_ifs <;>
    (try simp only [false_iff, true_iff, iff_false, iff_true]) <;> omega

lemma cd_eq_zero_iff (a b : CDate) :
    compareDate a b = 0 ↔
      (a.year = b.year ∧ a.month = b.month ∧ a.day = b.day) := by
  unfold compareDate compareYearMonth
  split_ifs <;>
    (try simp only [false_iff, true_iff, iff_false, iff_true]) <;> omega

lemma cd_refl (a : CDate) : compareDate a a = 0 := by
  rw [cd_eq_zero_iff]; exact ⟨rfl, rfl, rfl⟩

lemma cd_ne_one_swap (a b : CDate) :
    compareDate a b ≠ -1 ↔ compareDate b a ≠ 1 := by
  rw [Ne, Ne, cd_eq_neg_one_iff, cd_eq_one_iff]

lemma cd_le_trans {a b c : CDate} (h1 : compareDate a b ≠ 1)
    (h2 : compareDate b c ≠ 1) : compareDate a c ≠ 1 := by
  rw [Ne, cd_eq_one_iff] at h1 h2 ⊢
  omega

lemma cd_le_of_lt {a b : CDate} (h : compareDate a b = -1) :
    compareDate a b ≠ 1 := by
  rw [cd_eq_neg_one_iff] at h
  rw [Ne, cd_eq_one_iff]
  omega

/- Day-arithmetic order facts used by the range proofs. -/

lemma dim11 (y : Nat) : daysInMonth y 11 = 31 := rfl

lemma prevDay_lt (d : CDate) (hd : ValidDate d) :
    compareDate (createPreviousDay d) d = -1 := by
  obtain ⟨hy, hm, h1, h2⟩ := hd
  rw [cd_eq_neg_one_iff]
  unfold createPreviousDay
  split_ifs with hb1 hb2 <;> dsimp only <;> omega

lemma nextDay_gt (d : CDate) (hd : ValidDate d) :
    compareDate d (createNextDay d) = -1 := by
  obtain ⟨hy, hm, h1, h2⟩ := hd
  rw [cd_eq_neg_one_iff]
  unfold createNextDay
  split_ifs with hb1 hb2 <;> dsimp only <;> omega

lemma le_prevDay_of_lt {a d : CDate} (ha : ValidDate a) (hd : ValidDate d)
    (h : compareDate a d = -1) : compareDate a (createPreviousDay d) ≠ 1 := by
  obtain ⟨hay, ham, had1, had2⟩ := ha
  obtain ⟨hdy, hdm, hdd1, hdd2⟩ := hd
  rw [cd_eq_neg_one_iff] at h
  rw [Ne, cd_eq_one_iff]
  unfold createPreviousDay
  split_ifs with hb1 hb2
  · dsimp only
    omega
  · dsimp only
    intro hgt
    rcases hgt with h' | ⟨hye, h' | ⟨hme, hdim⟩⟩
    · omega
    · omega
    · rw [← hye, ← hme] at had2
      omega
  · dsimp only
    intro hgt
    rcases hgt with h' | ⟨hye, h' | ⟨hme, hday⟩⟩
    · omega
    · omega
    · rw [← hme] at had2
      rw [dim11] at had2
      omega

lemma nextDay_le_of_lt {a b : CDate} (ha : ValidDate a) (hb : ValidDate b)
    (h : compareDate a b = -1) : compareDate (createNextDay a) b ≠ 1 := by
  obtain ⟨hay, ham, had1, had2⟩ := ha
  obtain ⟨hby, hbm, hbd1, hbd2⟩ := hb
  rw [cd_eq_neg_one_iff] at h
  rw [Ne, cd_eq_one_iff]
  unfold createNextDay
  split_ifs with hb1 hb2
  · dsimp only
    omega
  · dsimp only
    intro hgt
    rcases h with h' | ⟨hyeq, h' | ⟨hmeq, hdlt⟩⟩
    · rcases hgt with h'' | ⟨hye, h''⟩ <;> omega
    · rcases hgt with h'' | ⟨hye, h'' | ⟨hme, hday⟩⟩ <;> omega
    · rcases hgt with h'' | ⟨hye, h'' | ⟨hme, hday⟩⟩
      · omega
      · rw [hyeq, hmeq] at hb1 had2
        omega
      · omega
  · dsimp only
    intro hgt
    rcases h with h' | ⟨hyeq, h' | ⟨hmeq, hdlt⟩⟩
    · rcases hgt with h'' | ⟨hye, h''⟩ <;> omega
    · omega
    · rw [hyeq, hmeq] at hb1
      omega

/-- limitDateRange lands in [lo, hi] whenever lo is not after hi. -/
lemma limit_in (x lo hi : CDate) (hlohi : compareDate lo hi ≠ 1) :
    compareDate (limitDateRange x lo hi) lo ≠ -1 ∧
    compareDate (limitDateRange x lo hi) hi ≠ 1 := by
  unfold limitDateRange
  split_ifs with h1 h2
  · refine ⟨?_, hlohi⟩
    rw [cd_refl]
    decide
  · refine ⟨(cd_ne_one_swap hi lo).mpr hlohi, ?_⟩
    rw [cd_refl]
    decide
  · exact ⟨h1, h2⟩

/- Structure of the month sequence. -/

lemma cym_anchor_le (i : Nat) (maxV : CDate) (hm : maxV.month ≤ 11) :
    compareYearMonth (monthAnchor i) maxV ≠ 1 ↔ i ≤ mIdx maxV := by
  rw [Ne, cym_eq_one_iff]
  unfold monthAnchor mIdx
  dsimp only
  omega

lemma monthsGo_ne_nil (maxV : CDate) (fuel c : Nat) :
    monthsGo maxV fuel c ≠ [] := by
  cases fuel <;> simp [monthsGo]

lemma monthsGo_head (maxV : CDate) (fuel c : Nat) :
    (monthsGo maxV fuel c).head? = some c := by
  cases fuel <;> simp [monthsGo]

lemma monthsGo_chain (maxV : CDate) (fuel : Nat) : ∀ c,
    List.Chain' (fun i j => j = i + 1) (monthsGo maxV fuel c) := by
  induction fuel with
  | zero =>
    intro c
    simp [monthsGo]
  | succ n ih =>
    intro c
    simp only [monthsGo]
    split_ifs with h
    · rw [List.chain'_cons']
      refine ⟨?_, ih (c + 1)⟩
      intro y hy
      rw [monthsGo_head] at hy
      simp only [Option.mem_def, Option.some.injEq] at hy
      omega
    · simp

lemma getLast?_cons_of_ne_nil {α : Type} (a : α) (l : List α) (h : l ≠ []) :
    (a :: l).getLast? = l.getLast? := by
  cases l with
  | nil => exact absurd rfl h
  | cons b t => exact List.getLast?_cons_cons

lemma monthsGo_getLast (maxV : CDate) (hm : maxV.month ≤ 11) (fuel : Nat) :
    ∀ c, mIdx maxV ≤ c + fuel → c ≤ mIdx maxV →
    (monthsGo maxV fuel c).getLast? = some (mIdx maxV) := by
  induction fuel with
  | zero =>
    intro c h1 h2
    have hc : c = mIdx maxV := by omega
    subst hc
    simp [monthsGo]
  | succ n ih =>
    intro c h1 h2
    simp only [monthsGo]
    by_cases hc : c + 1 ≤ mIdx maxV
    · rw [if_pos ((cym_anchor_le (c + 1) maxV hm).mpr hc)]
      rw [getLast?_cons_of_ne_nil _ _ (monthsGo_ne_nil _ _ _)]
      exact ih (c + 1) (by omega) hc
    · rw [if_neg (fun hcon => hc ((cym_anchor_le (c + 1) maxV hm).mp hcon))]
      have hce : c = mIdx maxV := by omega
      subst hce
      rfl

lemma map_getLast? {α β : Type} (f : α → β) : ∀ l : List α,
    (l.map f).getLast? = l.getLast?.map f := by
  intro l
  induction l with
  | nil => rfl
  | cons a t ih =>
    cases t with
    | nil => rfl
    | cons b t2 =>
      simpa [List.getLast?_cons_cons] using ih

lemma map_head? {α β : Type} (f : α → β) (l : List α) :
    (l.map f).head? = l.head?.map f := by
  cases l <;> rfl

lemma mIdx_monthAnchor (i : Nat) : mIdx (monthAnchor i) = i := by
  unfold mIdx monthAnchor
  dsimp only
  omega

/- Generic helpers about find? and filter. -/

lemma cd_one_swap (a b : CDate) : compareDate a b = 1 ↔ compareDate b a = -1 := by
  rw [cd_eq_one_iff, cd_eq_neg_one_iff]

lemma find?_first {α : Type} (p : α → Bool) : ∀ (l : List α) (d : α),
    l.find? p = some d →
    ∃ l₁ l₂, l = l₁ ++ d :: l₂ ∧ p d = true ∧ ∀ x ∈ l₁, p x = false := by
  intro l
  induction l with
  | nil =>
    intro d h
    simp [List.find?] at h
  | cons a t ih =>
    intro d h
    by_cases hpa : p a
    · rw [List.find?_cons_of_pos t hpa] at h
      cases h
      exact ⟨[], t, rfl, hpa, by simp⟩
    · rw [List.find?_cons_of_neg t hpa] at h
      obtain ⟨l₁, l₂, rfl, hp, hall⟩ := ih d h
      refine ⟨a :: l₁, l₂, rfl, hp, ?_⟩
      intro x hx
      rcases List.mem_cons.mp hx with rfl | hx
      · simpa using hpa
      · exact hall x hx

lemma filter_length_eq_iff {α : Type} (p : α → Bool) : ∀ l : List α,
    (l.filter p).length = l.length ↔ ∀ x ∈ l, p x = true := by
  intro l
  induction l with
  | nil => simp
  | cons a t ih =>
    by_cases hpa : p a
    · rw [List.filter_cons_of_pos hpa]
      simp only [List.length_cons]
      constructor
      · intro h x hx
        rcases List.mem_cons.mp hx with rfl | hx
        · exact hpa
        · exact (ih.mp (by omega)) x hx
      · intro h
        have := ih.mpr (fun x hx => h x (List.mem_cons_of_mem a hx))
        omega
    · rw [List.filter_cons_of_neg hpa]
      constructor
      · intro h
        have hle := List.length_filter_le p t
        simp only [List.length_cons] at h
        omega
      · intro h
        exact absurd (h a (List.mem_cons_self a t)) (by simpa using hpa)

/-- C3: in range mode with start set and end absent, for every tapped day
strictly after start, if some disabled day lies strictly between start
(exclusive) and the tapped day (exclusive) then the new value is
[start, previousDay d] where d is the first such disabled day in the scanned
disabled list; otherwise the new value is [start, tappedDay]. -/
theorem c3_range_first_disabled_clamp (cur : List CDate) (startDay date : CDate)
    (disabledDays : List CDate)
    (h0 : cur.get? 0 = some startDay) (h1 : cur.get? 1 = none)
    (hgt : compareDate date startDay = 1) :
    ((∃ x ∈ disabledDays,
        compareDate startDay x = -1 ∧ compareDate x date = -1) →
      ∃ d l₁ l₂, disabledDays = l₁ ++ d :: l₂ ∧
        compareDate startDay d = -1 ∧ compareDate d date = -1 ∧
        (∀ x ∈ l₁, ¬(compareDate startDay x = -1 ∧ compareDate x date = -1)) ∧
        onDayClick false .range (some (.dates cur)) disabledDays (some date)
          = some (.dates [startDay, createPreviousDay d])) ∧
    ((∀ x ∈ disabledDays,
        ¬(compareDate startDay x = -1 ∧ compareDate x date = -1)) →
      onDayClick false .range (some (.dates cur)) disabledDays (some date)
        = some (.dates [startDay, date])) := by
  constructor
  · rintro ⟨x, hx, hx1, hx2⟩
    rcases hfind : getDisabledDate disabledDays startDay date with _ | d
    · exfalso
      unfold getDisabledDate at hfind
      rw [List.find?_eq_none] at hfind
      exact absurd (by simp [hx1, hx2]) (hfind x hx)
    · obtain ⟨l₁, l₂, hdec, hp, hall⟩ := find?_first _ disabledDays d hfind
      refine ⟨d, l₁, l₂, hdec, ?_, ?_, ?_, ?_⟩
      · simp only [Bool.and_eq_true, beq_iff_eq] at hp
        exact hp.1
      · simp only [Bool.and_eq_true, beq_iff_eq] at hp
        exact hp.2
      · intro y hy hcon
        have := hall y hy
        simp [hcon.1, hcon.2] at this
      · simp only [onDayClick]
        rw [h0, h1]
        simp [hgt, hfind]
  · intro hall
    have hfind : getDisabledDate disabledDays startDay date = none := by
      unfold getDisabledDate
      rw [List.find?_eq_none]
      intro x hx
      simp only [Bool.and_eq_true, beq_iff_eq, not_and]
      intro hc1 hc2
      exact absurd ⟨hc1, hc2⟩ (hall x hx)
    simp only [onDayClick]
    rw [h0, h1]
    simp [hgt, hfind]

theorem c3_witness :
    (∀ x ∈ ([] : List CDate),
      ¬(compareDate ⟨2024, 0, 10⟩ x = -1 ∧ compareDate x ⟨2024, 0, 20⟩ = -1)) ∧
    onDayClick false .range (some (.dates [⟨2024, 0, 10⟩])) []
      (some ⟨2024, 0, 20⟩) = some (.dates [⟨2024, 0, 10⟩, ⟨2024, 0, 20⟩]) :=
  ⟨by simp, (c3_range_first_disabled_clamp [⟨2024, 0, 10⟩] ⟨2024, 0, 10⟩
    ⟨2024, 0, 20⟩ [] rfl rfl (by decide)).2 (by simp)⟩

/-- C8: in multiple mode, tapping a day that is day-equal to an element of the
current list removes exactly the day-equal elements and nothing else,
preserving the order of the rest (the result is the order-preserving filter,
a sublist of the original, keeping an element iff it is not day-equal);
tapping a day not day-equal to any element appends it at the end, preserving
the prior elements and their order. -/
theorem c8_multiple_toggle (dates disabledDays : List CDate) (date : CDate) :
    ((∃ x ∈ dates, compareDate x date = 0) →
      onDayClick false .multiple (some (.dates dates)) disabledDays (some date)
        = some (.dates (dates.filter (fun dateItem => compareDate dateItem date != 0))) ∧
      List.Sublist (dates.filter (fun dateItem => compareDate dateItem date != 0)) dates ∧
      (∀ x ∈ dates,
        (x ∈ dates.filter (fun dateItem => compareDate dateItem date != 0) ↔
          compareDate x date ≠ 0))) ∧
    ((∀ x ∈ dates, compareDate x date ≠ 0) →
      onDayClick false .multiple (some (.dates dates)) disabledDays (some date)
        = some (.dates (dates ++ [date]))) := by
  constructor
  · rintro ⟨x, hx, hxe⟩
    have hne : (dates.filter (fun dateItem => compareDate dateItem date != 0)).length
        ≠ dates.length := by
      rw [Ne, filter_length_eq_iff]
      intro hall
      have := hall x hx
      rw [bne_iff_ne] at this
      exact this hxe
    refine ⟨?_, List.filter_sublist dates, ?_⟩
    · simp only [onDayClick, Bool.false_eq_true, if_false]
      rw [if_pos hne]
    · intro y hy
      rw [List.mem_filter]
      simp [hy, bne_iff_ne]
  · intro hall
    have heq : (dates.filter (fun dateItem => compareDate dateItem date != 0)).length
        = dates.length := by
      rw [filter_length_eq_iff]
      intro y hy
      rw [bne_iff_ne]
      exact hall y hy
    simp only [onDayClick, Bool.false_eq_true, if_false]
    rw [if_neg (fun hcon => hcon heq)]

theorem c8_witness :
    onDayClick false .multiple (some (.dates [⟨2024, 0, 5⟩, ⟨2024, 0, 6⟩])) []
      (some ⟨2024, 0, 5⟩) = some (.dates [⟨2024, 0, 6⟩]) ∧
    onDayClick false .multiple (some (.dates [⟨2024, 0, 6⟩])) []
      (some ⟨2024, 0, 5⟩) = some (.dates [⟨2024, 0, 6⟩, ⟨2024, 0, 5⟩]) := by
  constructor
  · have h := (c8_multiple_toggle [⟨2024, 0, 5⟩, ⟨2024, 0, 6⟩] [] ⟨2024, 0, 5⟩).1
      ⟨⟨2024, 0, 5⟩, by decide, by decide⟩
    exact h.1.trans (by decide)
  · have h := (c8_multiple_toggle [⟨2024, 0, 6⟩] [] ⟨2024, 0, 5⟩).2 (by decide)
    exact h.trans (by decide)

/-- C9: in range mode with start set and end absent, tapping a day strictly
before start yields the single-endpoint value [tappedDay] (the old start is
discarded), and tapping a day day-equal to start yields the zero-length range
[tappedDay, tappedDay]. -/
theorem c9_range_restart (cur : List CDate) (startDay date : CDate)
    (disabledDays : List CDate)
    (h0 : cur.get? 0 = some startDay) (h1 : cur.get? 1 = none) :
    (compareDate date startDay = -1 →
      onDayClick false .range (some (.dates cur)) disabledDays (some date)
        = some (.dates [date])) ∧
    (compareDate date startDay = 0 →
      onDayClick false .range (some (.dates cur)) disabledDays (some date)
        = some (.dates [date, date])) := by
  constructor
  · intro h
    simp only [onDayClick]
    rw [h0, h1]
    simp [h]
  · intro h
    simp only [onDayClick]
    rw [h0, h1]
    simp [h]

theorem c9_witness :
    onDayClick false .range (some (.dates [⟨2024, 0, 10⟩])) []
      (some ⟨2024, 0, 5⟩) = some (.dates [⟨2024, 0, 5⟩]) ∧
    onDayClick false .range (some (.dates [⟨2024, 0, 10⟩])) []
      (some ⟨2024, 0, 10⟩) = some (.dates [⟨2024, 0, 10⟩, ⟨2024, 0, 10⟩]) :=
  ⟨(c9_range_restart [⟨2024, 0, 10⟩] ⟨2024, 0, 10⟩ ⟨2024, 0, 5⟩ [] rfl rfl).1
      (by decide),
   (c9_range_restart [⟨2024, 0, 10⟩] ⟨2024, 0, 10⟩ ⟨2024, 0, 10⟩ [] rfl rfl).2
      (by decide)⟩

/- Navigation facts. -/

lemma scrollTarget_dates (ty : CalendarType) (ds : List CDate) :
    scrollTarget ty (.dates ds) = ds.head? := by
  cases ty <;> cases ds <;> rfl

lemma scrollToDateLoop_spec (targetDate : CDate) : ∀ (l : List CDate) (k i : Nat),
    scrollToDateLoop targetDate l k = some i →
    ∃ j m, i = k + j ∧ l.get? j = some m ∧ compareYearMonth m targetDate = 0 := by
  intro l
  induction l with
  | nil =>
    intro k i h
    simp [scrollToDateLoop] at h
  | cons m rest ih =>
    intro k i h
    by_cases hm : compareYearMonth m targetDate == 0
    · rw [scrollToDateLoop, if_pos hm] at h
      cases h
      exact ⟨0, m, by omega, rfl, by simpa using hm⟩
    · rw [scrollToDateLoop, if_neg hm] at h
      obtain ⟨j, m2, rfl, hget, hcm⟩ := ih (k + 1) i h
      exact ⟨j + 1, m2, by omega, hget, hcm⟩

/-- C10: for every non-empty array selection value (every range or multiple
value, and an array under single mode), active navigation targets the array's
first element: the computed target is element 0 whatever the mode and the
other elements, and the month scrolled to and the subtitle published by
scrollToDate are those of the month anchor whose year-month equals element
0's. -/
theorem c10_navigate_to_first {α : Type} (ty : CalendarType) (ds : List CDate)
    (hne : ds ≠ []) (monthsL : List CDate) (render : CDate → α) :
    (∃ d0, ds.head? = some d0 ∧ scrollTarget ty (.dates ds) = some d0) ∧
    (∀ ds2 : List CDate, ds2.head? = ds.head? →
      scrollTarget ty (.dates ds2) = scrollTarget ty (.dates ds)) ∧
    (∀ d0, ds.head? = some d0 → ∀ i, scrollToDateIndex monthsL d0 = some i →
      ∃ m, monthsL.get? i = some m ∧ compareYearMonth m d0 = 0 ∧
        scrollToDateSubtitle monthsL render d0 = some (render m)) := by
  refine ⟨?_, ?_, ?_⟩
  · cases ds with
    | nil => exact absurd rfl hne
    | cons a t => exact ⟨a, rfl, by rw [scrollTarget_dates]; rfl⟩
  · intro ds2 h2
    rw [scrollTarget_dates, scrollTarget_dates, h2]
  · intro d0 _ i hidx
    obtain ⟨j, m, hj, hget, hcm⟩ :=
      scrollToDateLoop_spec d0 monthsL 0 i hidx
    refine ⟨m, by rw [hj]; simpa using hget, hcm, ?_⟩
    unfold scrollToDateSubtitle
    rw [hidx]
    simp only [Option.some_bind]
    rw [hj]
    simpa using congrArg (Option.map render) hget

theorem c10_witness :
    (∃ d0, ([⟨2024, 1, 10⟩, ⟨2024, 2, 5⟩] : List CDate).head? = some d0 ∧
      scrollTarget .range (.dates [⟨2024, 1, 10⟩, ⟨2024, 2, 5⟩]) = some d0) ∧
    (∀ ds2 : List CDate, ds2.head? = ([⟨2024, 1, 10⟩, ⟨2024, 2, 5⟩] : List CDate).head? →
      scrollTarget .range (.dates ds2)
        = scrollTarget .range (.dates [⟨2024, 1, 10⟩, ⟨2024, 2, 5⟩])) ∧
    (∀ d0, ([⟨2024, 1, 10⟩, ⟨2024, 2, 5⟩] : List CDate).head? = some d0 →
      ∀ i, scrollToDateIndex (months ⟨2024, 0, 1⟩ ⟨2024, 2, 31⟩) d0 = some i →
      ∃ m, (months ⟨2024, 0, 1⟩ ⟨2024, 2, 31⟩).get? i = some m ∧
        compareYearMonth m d0 = 0 ∧
        scrollToDateSubtitle (months ⟨2024, 0, 1⟩ ⟨2024, 2, 31⟩) mIdx d0
          = some (mIdx m)) :=
  c10_navigate_to_first .range [⟨2024, 1, 10⟩, ⟨2024, 2, 5⟩] (by decide)
    (months ⟨2024, 0, 1⟩ ⟨2024, 2, 31⟩) mIdx

/-- C1 counterexample: at scroll offset 500 with viewport height 800 and month
heights [300, 300, 300], the visible band bottom 1300 exceeds the total
content height 900 while the offset is positive, so onScroll's iOS-bounce
guard returns early: no month is selected (not index 1) and no subtitle is
published. -/
theorem c1_counterexample :
    onScrollPure 500 800 [300, 300, 300] = none ∧
    onScrollStep (months ⟨2024, 0, 1⟩ ⟨2024, 2, 31⟩) mIdx none 500 800
      [300, 300, 300] = (none, false) := by decide

/-- C1 amended: the overshoot guard suppresses the update in the claim's
scenario (band [500, 1300] exceeds total height 900 at positive offset); with
the band inside the content — same offset 500 and heights [300, 300, 300] but
viewport height 300, band [500, 800] — the first overlapping month is index 1
(span 300-600) and its subtitle is published. -/
theorem c1_theorem :
    onScrollPure 500 300 [300, 300, 300] = some 1 ∧
    onScrollStep (months ⟨2024, 0, 1⟩ ⟨2024, 2, 31⟩) mIdx none 500 300
      [300, 300, 300] = (some (mIdx ⟨2024, 1, 1⟩), true) := by decide

/-- C5 counterexample: the previously published subtitle state is exactly that
of anchor index 1 (month 2024-02), the run matches anchor index 1 again —the
anchor is unchanged— yet setSubtitle is invoked (flag true): the code
publishes on every matching run with no anchor-change guard. -/
theorem c5_counterexample :
    (months ⟨2024, 0, 1⟩ ⟨2024, 2, 31⟩).get? 1 = some ⟨2024, 1, 1⟩ ∧
    onScrollStep (months ⟨2024, 0, 1⟩ ⟨2024, 2, 31⟩) mIdx
      (some (mIdx ⟨2024, 1, 1⟩)) 500 300 [300, 300, 300]
      = (some (mIdx ⟨2024, 1, 1⟩), true) := by decide

/-- C5 amended: on every passive-sync run that finds a matching visible month,
the subtitle is recomputed and published unconditionally — whether or not the
anchor changed; the written state is the renderer applied to the matched
anchor (so on an unchanged anchor the same value is re-published rather than
the update being skipped). -/
theorem c5_theorem {α : Type} (monthsL : List CDate) (render : CDate → α)
    (subtitle : Option α) (top bodyHeight : Int) (heights : List Int)
    (i : Nat) (m : CDate)
    (hsel : onScrollPure top bodyHeight heights = some i)
    (hm : monthsL.get? i = some m) :
    onScrollStep monthsL render subtitle top bodyHeight heights
      = (some (render m), true) := by
  unfold onScrollStep
  rw [hsel]
  dsimp only
  rw [hm]

theorem c5_witness :
    onScrollStep (months ⟨2024, 0, 1⟩ ⟨2024, 2, 31⟩) mIdx (some 7) 500 300
      [300, 300, 300] = (some (mIdx ⟨2024, 1, 1⟩), true) :=
  c5_theorem (months ⟨2024, 0, 1⟩ ⟨2024, 2, 31⟩) mIdx (some 7) 500 300
    [300, 300, 300] 1 ⟨2024, 1, 1⟩ (by decide) (by decide)

/-- C2 counterexample: with min 2024-05-10 after max 2024-03-01, the do/while
loop still pushes min's month anchor before testing the guard, so the month
sequence is the one-element list [2024-05-01], not the empty sequence. -/
theorem c2_counterexample :
    compareDate ⟨2024, 4, 10⟩ ⟨2024, 2, 1⟩ = 1 ∧
    months ⟨2024, 4, 10⟩ ⟨2024, 2, 1⟩ = [⟨2024, 4, 1⟩] ∧
    months ⟨2024, 4, 10⟩ ⟨2024, 2, 1⟩ ≠ [] := by decide

/-- C4 counterexample: range-mode initial-value normalization clamps each
endpoint separately and never orders the pair: the raw default
[2024-01-20, 2024-01-05] inside bounds [2024-01-01, 2024-01-31] normalizes to
[2024-01-20, 2024-01-05] with start strictly after end. -/
theorem c4_counterexample :
    getInitialDate .range ⟨2024, 0, 10⟩ ⟨2024, 0, 1⟩ ⟨2024, 0, 31⟩
      (.arr [⟨2024, 0, 20⟩, ⟨2024, 0, 5⟩])
      = some (.dates [⟨2024, 0, 20⟩, ⟨2024, 0, 5⟩]) ∧
    compareDate ⟨2024, 0, 20⟩ ⟨2024, 0, 5⟩ = 1 := by decide

/-- C7 counterexample: with equal bounds min = max = 2024-01-15 (a legitimate
min ≤ max instance) and an undefined raw default, range-mode normalization
clamps start into [min, previousDay max] and end into [nextDay min, max],
producing [2024-01-14, 2024-01-16] — both components outside [min, max]. -/
theorem c7_counterexample :
    getInitialDate .range ⟨2024, 0, 15⟩ ⟨2024, 0, 15⟩ ⟨2024, 0, 15⟩ .undef
      = some (.dates [⟨2024, 0, 14⟩, ⟨2024, 0, 16⟩]) ∧
    compareDate ⟨2024, 0, 15⟩ ⟨2024, 0, 15⟩ ≠ 1 ∧
    ¬ allInRange ⟨2024, 0, 15⟩ ⟨2024, 0, 15⟩
      (getInitialDate .range ⟨2024, 0, 15⟩ ⟨2024, 0, 15⟩ ⟨2024, 0, 15⟩ .undef) := by
  refine ⟨by decide, by decide, ?_⟩
  intro h
  have := h ⟨2024, 0, 14⟩ (by decide)
  exact absurd rfl this.1

lemma monthAnchor_mIdx (x : CDate) (hm : x.month ≤ 11) :
    monthAnchor (mIdx x) = ⟨x.year, x.month, 1⟩ := by
  unfold monthAnchor mIdx
  simp only [CDate.mk.injEq]
  refine ⟨?_, ?_, trivial⟩ <;> omega

/-- C2 amended: for every pair of valid bounds with min strictly after max at
day granularity, the month-sequence construction produces the one-element
sequence holding the first day of min's month (the do/while loop pushes min's
month before testing its guard), and in particular never raises. -/
theorem c2_theorem (minV maxV : CDate) (hmin : ValidDate minV)
    (hmax : ValidDate maxV) (hgt : compareDate minV maxV = 1) :
    months minV maxV = [⟨minV.year, minV.month, 1⟩] := by
  have hminm : minV.month ≤ 11 := hmin.2.1
  have hmaxm : maxV.month ≤ 11 := hmax.2.1
  have hidx : mIdx maxV ≤ mIdx minV := by
    rw [cd_eq_one_iff] at hgt
    unfold mIdx
    omega
  have hfuel : mIdx maxV - mIdx minV = 0 := by omega
  unfold months
  rw [hfuel]
  simp only [monthsGo, List.map_cons, List.map_nil]
  rw [monthAnchor_mIdx minV hminm]

theorem c2_witness :
    months ⟨2025, 6, 1⟩ ⟨2024, 0, 31⟩ = [⟨2025, 6, 1⟩] :=
  c2_theorem ⟨2025, 6, 1⟩ ⟨2024, 0, 31⟩ (by decide) (by decide) (by decide)

/-- C6: for every pair of valid bounds with min not after max, the month
sequence is non-empty, consists of first-of-month dates, advances by exactly
one calendar month per step (hence is strictly increasing), starts at min's
year-month and ends at max's year-month. -/
theorem c6_month_sequence (minV maxV : CDate) (hmin : ValidDate minV)
    (hmax : ValidDate maxV) (hle : compareDate minV maxV ≠ 1) :
    months minV maxV ≠ [] ∧
    (∀ d ∈ months minV maxV, d.day = 1) ∧
    List.Chain' (fun a b => mIdx b = mIdx a + 1) (months minV maxV) ∧
    (months minV maxV).head? = some ⟨minV.year, minV.month, 1⟩ ∧
    (months minV maxV).getLast? = some ⟨maxV.year, maxV.month, 1⟩ := by
  have hminm : minV.month ≤ 11 := hmin.2.1
  have hmaxm : maxV.month ≤ 11 := hmax.2.1
  have hidx : mIdx minV ≤ mIdx maxV := by
    rw [Ne, cd_eq_one_iff] at hle
    unfold mIdx
    omega
  unfold months
  refine ⟨?_, ?_, ?_, ?_, ?_⟩
  · intro hcon
    exact monthsGo_ne_nil maxV _ _ (List.map_eq_nil_iff.mp hcon)
  · intro d hd
    rw [List.mem_map] at hd
    obtain ⟨i, _, rfl⟩ := hd
    rfl
  · rw [List.chain'_map]
    apply List.Chain'.imp ?_ (monthsGo_chain maxV (mIdx maxV - mIdx minV) (mIdx minV))
    intro a b hab
    rw [hab, mIdx_monthAnchor, mIdx_monthAnchor]
  · rw [map_head?, monthsGo_head]
    simp only [Option.map_some']
    rw [monthAnchor_mIdx minV hminm]
  · rw [map_getLast?, monthsGo_getLast maxV hmaxm _ _ (by omega) hidx]
    simp only [Option.map_some']
    rw [monthAnchor_mIdx maxV hmaxm]

theorem c6_witness :
    months ⟨2024, 0, 5⟩ ⟨2024, 2, 20⟩ ≠ [] ∧
    (∀ d ∈ months ⟨2024, 0, 5⟩ ⟨2024, 2, 20⟩, d.day = 1) ∧
    List.Chain' (fun a b => mIdx b = mIdx a + 1) (months ⟨2024, 0, 5⟩ ⟨2024, 2, 20⟩) ∧
    (months ⟨2024, 0, 5⟩ ⟨2024, 2, 20⟩).head? = some ⟨2024, 0, 1⟩ ∧
    (months ⟨2024, 0, 5⟩ ⟨2024, 2, 20⟩).getLast? = some ⟨2024, 2, 1⟩ :=
  c6_month_sequence ⟨2024, 0, 5⟩ ⟨2024, 2, 20⟩ (by decide) (by decide) (by decide)

lemma range_clamp_start_in (minV maxV s0 : CDate) (hmin : ValidDate minV)
    (hmax : ValidDate maxV) (hlt : compareDate minV maxV = -1) :
    InRange minV maxV (limitDateRange s0 minV (createPreviousDay maxV)) := by
  have hpm := le_prevDay_of_lt hmin hmax hlt
  have hpm2 := cd_le_of_lt (prevDay_lt maxV hmax)
  obtain ⟨ha1, ha2⟩ := limit_in s0 minV (createPreviousDay maxV) hpm
  exact ⟨ha1, cd_le_trans ha2 hpm2⟩

lemma range_clamp_stop_in (minV maxV e0 : CDate) (hmin : ValidDate minV)
    (hmax : ValidDate maxV) (hlt : compareDate minV maxV = -1) :
    InRange minV maxV (limitDateRange e0 (createNextDay minV) maxV) := by
  have hnm := nextDay_le_of_lt hmin hmax hlt
  have hmn := cd_le_of_lt (nextDay_gt minV hmin)
  obtain ⟨hb1, hb2⟩ := limit_in e0 (createNextDay minV) maxV hnm
  refine ⟨?_, hb2⟩
  rw [cd_ne_one_swap]
  exact cd_le_trans hmn ((cd_ne_one_swap _ _).mp hb1)

/-- C7 amended: for every valid bounds pair and every non-sentinel raw default
(wrong shapes and out-of-range dates included), initial-value normalization
returns values inside [min, max] in single and multiple mode whenever
min ≤ max, and in range mode whenever min is strictly before max (with
min = max the range clamps [min, previousDay max] / [nextDay min, max] step
outside the bounds, per the counterexample). -/
theorem c7_normalize_in_bounds (now minV maxV : CDate) (raw : RawValue)
    (hmin : ValidDate minV) (hmax : ValidDate maxV)
    (hraw : raw ≠ RawValue.null) :
    (compareDate minV maxV ≠ 1 →
      allInRange minV maxV (getInitialDate .single now minV maxV raw) ∧
      allInRange minV maxV (getInitialDate .multiple now minV maxV raw)) ∧
    (compareDate minV maxV = -1 →
      allInRange minV maxV (getInitialDate .range now minV maxV raw)) := by
  constructor
  · intro hle
    constructor
    · rcases raw with _ | _ | d | ds
      · exact absurd rfl hraw
      · simp only [getInitialDate, allInRange]
        exact limit_in now minV maxV hle
      · simp only [getInitialDate, allInRange]
        exact limit_in d minV maxV hle
      · simp only [getInitialDate, allInRange]
        exact limit_in now minV maxV hle
    · rcases raw with _ | _ | d | ds
      · exact absurd rfl hraw
      · simp only [getInitialDate, allInRange]
        intro x hx
        rw [List.mem_singleton] at hx
        subst hx
        exact limit_in now minV maxV hle
      · simp only [getInitialDate, allInRange]
        intro x hx
        rw [List.mem_singleton] at hx
        subst hx
        exact limit_in now minV maxV hle
      · simp only [getInitialDate, allInRange]
        intro x hx
        rw [List.mem_map] at hx
        obtain ⟨a, _, rfl⟩ := hx
        exact limit_in a minV maxV hle
  · intro hlt
    rcases raw with _ | _ | d | ds
    · exact absurd rfl hraw
    · simp only [getInitialDate, allInRange]
      intro x hx
      rcases List.mem_cons.mp hx with rfl | hx
      · exact range_clamp_start_in minV maxV _ hmin hmax hlt
      · rcases List.mem_cons.mp hx with rfl | hx2
        · exact range_clamp_stop_in minV maxV _ hmin hmax hlt
        · simp at hx2
    · simp only [getInitialDate, allInRange]
      intro x hx
      rcases List.mem_cons.mp hx with rfl | hx
      · exact range_clamp_start_in minV maxV _ hmin hmax hlt
      · rcases List.mem_cons.mp hx with rfl | hx2
        · exact range_clamp_stop_in minV maxV _ hmin hmax hlt
        · simp at hx2
    · simp only [getInitialDate, allInRange]
      intro x hx
      rcases List.mem_cons.mp hx with rfl | hx
      · exact range_clamp_start_in minV maxV _ hmin hmax hlt
      · rcases List.mem_cons.mp hx with rfl | hx2
        · exact range_clamp_stop_in minV maxV _ hmin hmax hlt
        · simp at hx2

theorem c7_witness :
    allInRange ⟨2024, 0, 1⟩ ⟨2024, 2, 31⟩
      (getInitialDate .single ⟨2024, 0, 15⟩ ⟨2024, 0, 1⟩ ⟨2024, 2, 31⟩
        (.date ⟨2030, 5, 5⟩)) ∧
    allInRange ⟨2024, 0, 1⟩ ⟨2024, 2, 31⟩
      (getInitialDate .range ⟨2024, 0, 15⟩ ⟨2024, 0, 1⟩ ⟨2024, 2, 31⟩
        (.arr [⟨2020, 0, 1⟩])) :=
  ⟨((c7_normalize_in_bounds ⟨2024, 0, 15⟩ ⟨2024, 0, 1⟩ ⟨2024, 2, 31⟩
      (.date ⟨2030, 5, 5⟩) (by decide) (by decide) (by decide)).1 (by decide)).1,
   (c7_normalize_in_bounds ⟨2024, 0, 15⟩ ⟨2024, 0, 1⟩ ⟨2024, 2, 31⟩
      (.arr [⟨2020, 0, 1⟩]) (by decide) (by decide) (by decide)).2 (by decide)⟩

/-- C4 amended: every range-mode value produced by a tap transition
(onDayClick) that has both start and end present satisfies start ≤ end at day
granularity, for every prior value and valid disabled list; initial-value
normalization does not guarantee the invariant (it clamps the two raw
endpoints independently and never orders them, per the counterexample). -/
theorem c4_tap_preserves_order (currentValue : Option CalValue)
    (disabledDays : List CDate) (date : CDate) (l : List CDate) (s e : CDate)
    (hdd : ∀ x ∈ disabledDays, ValidDate x)
    (hcur : ∀ ds, currentValue = some (.dates ds) → ∀ x ∈ ds, ValidDate x)
    (hrun : onDayClick false .range currentValue disabledDays (some date)
      = some (.dates l))
    (h0 : l.get? 0 = some s) (h1 : l.get? 1 = some e) :
    compareDate s e ≠ 1 := by
  rcases currentValue with _ | cv
  · simp only [onDayClick, Bool.false_eq_true, if_false] at hrun
    obtain rfl : l = [date] := by simpa using hrun.symm
    simp at h1
  rcases cv with d0 | ds
  · simp only [onDayClick, Bool.false_eq_true, if_false] at hrun
    simp at hrun
  have hv := hcur ds rfl
  simp only [onDayClick, Bool.false_eq_true, if_false] at hrun
  rcases hd0 : ds.get? 0 with _ | s0
  · rw [hd0] at hrun
    rcases hd1 : ds.get? 1 with _ | e1 <;> rw [hd1] at hrun <;>
      dsimp only at hrun
    · obtain rfl : l = [date] := by simpa using hrun.symm
      simp at h1
    · obtain rfl : l = [date] := by simpa using hrun.symm
      simp at h1
  rw [hd0] at hrun
  rcases hd1 : ds.get? 1 with _ | e1
  · rw [hd1] at hrun
    dsimp only at hrun
    by_cases hc1 : compareDate date s0 = 1
    · rw [if_pos hc1] at hrun
      rcases hfind : getDisabledDate disabledDays s0 date with _ | dD
      · rw [hfind] at hrun
        dsimp only at hrun
        obtain rfl : l = [s0, date] := by simpa using hrun.symm
        simp only [List.get?] at h0 h1
        obtain rfl : s0 = s := by simpa using h0
        obtain rfl : date = e := by simpa using h1
        exact cd_le_of_lt ((cd_one_swap date s0).mp hc1)
      · rw [hfind] at hrun
        dsimp only at hrun
        obtain rfl : l = [s0, createPreviousDay dD] := by simpa using hrun.symm
        simp only [List.get?] at h0 h1
        obtain rfl : s0 = s := by simpa using h0
        obtain rfl : createPreviousDay dD = e := by simpa using h1
        have hvs : ValidDate s0 := hv s0 (List.get?_mem hd0)
        unfold getDisabledDate at hfind
        have hp := List.find?_some hfind
        have hmem := List.mem_of_find?_eq_some hfind
        have hvD := hdd dD hmem
        simp only [Bool.and_eq_true, beq_iff_eq] at hp
        exact le_prevDay_of_lt hvs hvD hp.1
    · rw [if_neg hc1] at hrun
      by_cases hc2 : compareDate date s0 = -1
      · rw [if_pos hc2] at hrun
        obtain rfl : l = [date] := by simpa using hrun.symm
        simp at h1
      · rw [if_neg hc2] at hrun
        obtain rfl : l = [date, date] := by simpa using hrun.symm
        simp only [List.get?] at h0 h1
        obtain rfl : date = s := by simpa using h0
        obtain rfl : date = e := by simpa using h1
        rw [cd_refl]
        decide
  · rw [hd1] at hrun
    dsimp only at hrun
    obtain rfl : l = [date] := by simpa using hrun.symm
    simp at h1

theorem c4_witness :
    onDayClick false .range (some (.dates [⟨2024, 0, 10⟩])) [⟨2024, 0, 15⟩]
      (some ⟨2024, 0, 20⟩) = some (.dates [⟨2024, 0, 10⟩, ⟨2024, 0, 14⟩]) ∧
    compareDate ⟨2024, 0, 10⟩ ⟨2024, 0, 14⟩ ≠ 1 := by
  refine ⟨by decide, ?_⟩
  refine c4_tap_preserves_order (some (.dates [⟨2024, 0, 10⟩])) [⟨2024, 0, 15⟩]
    ⟨2024, 0, 20⟩ [⟨2024, 0, 10⟩, ⟨2024, 0, 14⟩] ⟨2024, 0, 10⟩ ⟨2024, 0, 14⟩
    (by decide) ?_ (by decide) rfl rfl
  intro ds hds x hx
  have hds2 : ds = [⟨2024, 0, 10⟩] := by simpa using hds.symm
  subst hds2
  rw [List.mem_singleton] at hx
  subst hx
  decide
